import Mathlib

/-!
Verification of the article-scraper service (`src/app.py`).

The development shallowly embeds the program's core components:

* `HTMLTextExtractor` — the streaming markup reducer (app.py lines 26-51);
* `LinkExtractor` — the article-link classifier (app.py lines 54-119);
* `scrape_articles` — the crawl orchestrator (app.py lines 151-187);
* `scrape_route` — the `/api/scrape` endpoint handler (app.py lines 197-220).

The program drives both extractors through Python's `html.parser.HTMLParser`
and resolves URLs through `urllib.parse`; those standard-library
collaborators are not part of the repository, so they are modelled here as
executable Lean functions (`tokenize`, `pyUrlsplit`, `urljoin`) faithful to
CPython's behaviour on the constructs the program exercises.  The fetch layer
(`curl_cffi`) performs network I/O and is abstracted as a function
`String → Except String String` (success body or exception message), exactly
the shape the orchestrator consumes.

All machine-level strings are Python `str` values, modelled as Lean `String`
(in Lean 4.14 a `String` is a packed `List Char`); character-level helpers
work on `List Char` and mirror the Python string methods the source calls.
-/

set_option maxRecDepth 4096

namespace Scraper

/-! ### Python string primitives

Models of the `str` methods used by `app.py`.  Case mapping is ASCII-only
(every string the program compares case-insensitively — schemes, hosts, tag
names, path segments — is ASCII in the HTML/URL grammar).  Whitespace is the
ASCII fragment of Python's `\s` / `str.strip` class; the program never feeds
non-ASCII whitespace to these helpers.
-/

/-- ASCII whitespace, the fragment of Python's `\s` class exercised here. -/
def isPySpace (c : Char) : Bool :=
  c = ' ' ∨ c = '\t' ∨ c = '\n' ∨ c = '\r' ∨ c = '\x0b' ∨ c = '\x0c'

/-- ASCII lower-casing of one character, as `str.lower` acts on ASCII. -/
def pyLowerChar (c : Char) : Char :=
  if 'A' ≤ c ∧ c ≤ 'Z' then Char.ofNat (c.toNat + 32) else c

/-- Model of `str.lower` (ASCII fragment). -/
def pyLower (s : String) : String :=
  String.mk (s.data.map pyLowerChar)

/-- Model of `a.startswith(b)`. -/
def pyStartswith (s pre : String) : Bool :=
  pre.data.isPrefixOf s.data

/-- Model of `a.endswith(b)`. -/
def pyEndswith (s suf : String) : Bool :=
  suf.data.isSuffixOf s.data

/-- Model of `str.split(sep)` for a one-character separator, on `List Char`:
`"".split(c)` is `[""]` and adjacent separators produce empty fields,
as in Python. -/
def splitChar (sep : Char) : List Char → List (List Char)
  | [] => [[]]
  | c :: cs =>
    let r := splitChar sep cs
    if c = sep then [] :: r
    else
      match r with
      | [] => [[c]]
      | f :: rest => (c :: f) :: rest

/-- Model of `s.split(sep)` for a one-character separator string. -/
def pySplitOn (sep : Char) (s : String) : List String :=
  (splitChar sep s.data).map String.mk

/-- Model of `sep.join(parts)` for a one-character separator. -/
def pyJoin (sep : Char) : List String → String
  | [] => ""
  | [s] => s
  | s :: rest => s ++ String.mk [sep] ++ pyJoin sep rest

/-- Model of `s.rstrip("/")`: drop trailing `/` characters. -/
def pyRstripSlash (s : String) : String :=
  String.mk ((s.data.reverse.dropWhile (fun c => c = '/')).reverse)

/-- One pass of `re.sub(r"\s+", " ", raw)`: every maximal whitespace run
becomes a single blank. -/
def collapseWs : List Char → List Char
  | [] => []
  | c :: cs =>
    if isPySpace c then
      match cs with
      | [] => [' ']
      | d :: _ => if isPySpace d then collapseWs cs else ' ' :: collapseWs cs
    else c :: collapseWs cs

/-- Model of `str.strip()`: remove leading and trailing whitespace. -/
def pyStrip (l : List Char) : List Char :=
  (((l.dropWhile isPySpace).reverse.dropWhile isPySpace)).reverse

/-! ### URL model

Models of `urllib.parse.urlsplit` / `urljoin` / component reassembly, after
CPython's `Lib/urllib/parse.py`.  Simplifications, none of which the
program's URLs exercise: RFC 1808 `;`-parameters are not split out
(`urlparse` vs `urlsplit` — the program's URLs carry no `;`), the WHATWG
control-character pre-strip is omitted, and the `uses_relative` /
`uses_netloc` scheme lists are restricted to the schemes relevant here. -/

structure URLParts where
  scheme : String
  netloc : String
  path : String
  query : String
  fragment : String
  deriving DecidableEq, Repr

def schemeChar (c : Char) : Bool :=
  c.isAlpha ∨ c.isDigit ∨ c = '+' ∨ c = '-' ∨ c = '.'

/-- Split a string at the first occurrence of `sep`, if any. -/
def splitOnce (sep : Char) (l : List Char) : Option (List Char × List Char) :=
  match l with
  | [] => none
  | c :: cs =>
    if c = sep then some ([], cs)
    else
      match splitOnce sep cs with
      | none => none
      | some (a, b) => some (c :: a, b)

/-- Model of `urllib.parse.urlsplit` (scheme, then `//netloc`, then fragment,
then query, as in CPython). -/
def pyUrlsplitCore (l : List Char) (defaultScheme : String) : URLParts :=
  let (scheme, rest) :=
    match splitOnce ':' l with
    | none => (defaultScheme, l)
    | some (pre, post) =>
      if pre ≠ [] ∧ (pre.headD ' ').isAlpha ∧ pre.all schemeChar then
        (pyLower (String.mk pre), post)
      else (defaultScheme, l)
  let (netloc, rest) :=
    match rest with
    | '/' :: '/' :: r =>
      (r.takeWhile (fun c => c ≠ '/' ∧ c ≠ '?' ∧ c ≠ '#'),
       r.dropWhile (fun c => c ≠ '/' ∧ c ≠ '?' ∧ c ≠ '#'))
    | r => ([], r)
  let (rest, fragment) :=
    match splitOnce '#' rest with
    | none => (rest, [])
    | some (a, b) => (a, b)
  let (path, query) :=
    match splitOnce '?' rest with
    | none => (rest, [])
    | some (a, b) => (a, b)
  ⟨scheme, String.mk netloc, String.mk path, String.mk query, String.mk fragment⟩

/-- Model of `urllib.parse.urlparse` (no `;`-parameter split; see above). -/
def pyUrlparse (s : String) : URLParts :=
  pyUrlsplitCore s.data ""

/-- Model of `urllib.parse.urlunsplit`. -/
def pyUrlunsplit (u : URLParts) : String :=
  let url :=
    if u.netloc ≠ "" ∨ u.path.data.take 2 = ['/', '/'] then
      let p := if u.path ≠ "" ∧ u.path.data.take 1 ≠ ['/'] then "/" ++ u.path else u.path
      "//" ++ u.netloc ++ p
    else u.path
  let url := if u.scheme ≠ "" then u.scheme ++ ":" ++ url else url
  let url := if u.query ≠ "" then url ++ "?" ++ u.query else url
  if u.fragment ≠ "" then url ++ "#" ++ u.fragment else url

/-- Schemes for which relative resolution applies (`uses_relative`,
restricted to the schemes this system can meet). -/
def usesRelative : List String := ["", "http", "https", "ftp", "file", "ws", "wss"]

/-- Schemes carrying a network location (`uses_netloc`, same restriction). -/
def usesNetloc : List String := ["", "http", "https", "ftp", "file", "ws", "wss"]

/-- Model of `segments[1:-1] = filter(None, segments[1:-1])` from
CPython's `urljoin`. -/
def filterMiddle (l : List String) : List String :=
  match l with
  | [] => []
  | [x] => [x]
  | x :: xs =>
    match xs.getLast? with
    | none => [x]
    | some last => x :: (xs.dropLast.filter (fun s => s ≠ "")) ++ [last]

/-- Dot-segment resolution loop of CPython's `urljoin`
(`..` pops, `.` is dropped, a trailing `.`/`..` leaves a trailing slash). -/
def resolveSegments (segments : List String) : List String :=
  let resolved := segments.foldl
    (fun acc seg =>
      if seg = ".." then acc.dropLast
      else if seg = "." then acc
      else acc ++ [seg]) []
  if segments.getLastD "" = ".." ∨ segments.getLastD "" = "." then
    resolved ++ [""]
  else resolved

/-- Model of `urllib.parse.urljoin`, after CPython (no `;`-parameters). -/
def urljoin (base url : String) : String :=
  if base = "" then url
  else if url = "" then base
  else
    let b := pyUrlsplitCore base.data ""
    let r := pyUrlsplitCore url.data b.scheme
    if r.scheme ≠ b.scheme ∨ r.scheme ∉ usesRelative then url
    else
      let netloc :=
        if r.scheme ∈ usesNetloc then
          if r.netloc ≠ "" then r.netloc else b.netloc
        else r.netloc
      if r.scheme ∈ usesNetloc ∧ r.netloc ≠ "" then
        pyUrlunsplit { r with netloc := netloc }
      else if r.path = "" then
        pyUrlunsplit { r with netloc := netloc, path := b.path,
                              query := if r.query = "" then b.query else r.query }
      else
        let baseParts :=
          let bp := pySplitOn '/' b.path
          if bp.getLastD "" ≠ "" then bp.dropLast else bp
        let segments :=
          if r.path.data.take 1 = ['/'] then pySplitOn '/' r.path
          else filterMiddle (baseParts ++ pySplitOn '/' r.path)
        let joined := pyJoin '/' (resolveSegments segments)
        pyUrlunsplit { r with netloc := netloc,
                              path := if joined = "" then "/" else joined }

/-! ### HTML tokenizer model

Model of `html.parser.HTMLParser` (stdlib, not part of this repository) as
used by the program: `feed(html)` with the default `convert_charrefs=True`
and — exactly as `extract_text` / `extract_links` do — *without* a final
`close()`.  Consequences modelled faithfully: character references in
ordinary text are converted; `<script>`/`<style>` bodies are raw text
(CDATA) up to the matching close tag; tag and attribute names are
lower-cased before the handlers see them; a self-closing `<t/>` produces a
start event followed by an end event; comments, declarations and bogus
comments produce no events; and markup left incomplete at the end of input
(an unterminated tag, comment, or CDATA body) stays buffered and is never
delivered.  Simplifications (unexercised by the program's inputs, noted for
the record): the named-reference table is the subset below and a terminating
`;` is required (CPython also accepts a few semicolon-less forms), numeric
references are not converted, and whitespace is not allowed between `</` and
the tag name.  Recursion is bounded by an explicit fuel that dominates the
step count (at most two steps per input character). -/

inductive HEvent where
  | startTag (tag : String) (attrs : List (String × Option String))
  | endTag (tag : String)
  | text (s : String)
  deriving DecidableEq, Repr

/-- Named character references recognised by this model. -/
def charrefTable : List (String × Char) :=
  [("lt", '<'), ("gt", '>'), ("amp", '&'), ("quot", '\x22'), ("apos", '\x27'), ("nbsp", ' ')]

/-- Parse a named character reference after a `&`; `none` leaves the `&`
as literal text. -/
def parseCharref (r : List Char) : Option (Char × List Char) :=
  let name := r.takeWhile (fun c => c.isAlpha ∨ c.isDigit)
  if name = [] then none
  else
    match r.drop name.length with
    | ';' :: rest =>
      match charrefTable.lookup (String.mk name) with
      | some c => some (c, rest)
      | none => none
    | _ => none

/-- Convert character references inside attribute values
(`html.parser` unescapes attribute values). -/
def unescapeChars (fuel : Nat) (l : List Char) : List Char :=
  match fuel, l with
  | 0, l => l
  | _, [] => []
  | fuel + 1, '&' :: r =>
    match parseCharref r with
    | some (c, r2) => c :: unescapeChars fuel r2
    | none => '&' :: unescapeChars fuel r
  | fuel + 1, c :: r => c :: unescapeChars fuel r

def pyUnescape (s : String) : String :=
  String.mk (unescapeChars s.data.length s.data)

/-- Characters allowed inside an end-tag name. -/
def endTagNameChar (c : Char) : Bool :=
  c.isAlpha ∨ c.isDigit ∨ c = '-' ∨ c = '.' ∨ c = ':' ∨ c = '_'

/-- Parse an end tag after `</` (first character known alphabetic):
name, then anything up to the next `>`.  `none` means the input ended
before `>` (buffered by `feed`, hence dropped). -/
def parseEndTagCore (r : List Char) : Option (String × List Char) :=
  let name := r.takeWhile endTagNameChar
  match splitOnce '>' (r.drop name.length) with
  | none => none
  | some (_, rest) => some (pyLower (String.mk name), rest)

/-- Attribute loop of `parse_starttag` (tolerant of stray `/`, quoted and
unquoted values, valueless attributes).  Fuel dominates the iteration
count; every iteration consumes at least one character. -/
def parseAttrs (fuel : Nat) (r : List Char) (acc : List (String × Option String)) :
    Option (List (String × Option String) × Bool × List Char) :=
  match fuel with
  | 0 => none
  | fuel + 1 =>
    let r := r.dropWhile isPySpace
    match r with
    | [] => none
    | '>' :: rest => some (acc, false, rest)
    | '/' :: '>' :: rest => some (acc, true, rest)
    | '/' :: rest => parseAttrs fuel rest acc
    | _ =>
      let aname := r.takeWhile (fun c => ¬ isPySpace c ∧ c ≠ '=' ∧ c ≠ '/' ∧ c ≠ '>')
      if aname = [] then parseAttrs fuel (r.drop 1) acc
      else
        let key := pyLower (String.mk aname)
        let r2 := (r.drop aname.length).dropWhile isPySpace
        match r2 with
        | '=' :: r3 =>
          let r3 := r3.dropWhile isPySpace
          match r3 with
          | '\x22' :: r4 =>
            let v := r4.takeWhile (fun c => c ≠ '\x22')
            match r4.drop v.length with
            | _ :: r5 => parseAttrs fuel r5 (acc ++ [(key, some (pyUnescape (String.mk v)))])
            | [] => none
          | '\x27' :: r4 =>
            let v := r4.takeWhile (fun c => c ≠ '\x27')
            match r4.drop v.length with
            | _ :: r5 => parseAttrs fuel r5 (acc ++ [(key, some (pyUnescape (String.mk v)))])
            | [] => none
          | _ =>
            let v := r3.takeWhile (fun c => ¬ isPySpace c ∧ c ≠ '>')
            parseAttrs fuel (r3.drop v.length) (acc ++ [(key, some (pyUnescape (String.mk v)))])
        | _ => parseAttrs fuel r2 (acc ++ [(key, none)])

/-- Parse a start tag after `<` (first character known alphabetic).
Returns the lower-cased name, attribute list, the self-closing flag, and
the remaining input; `none` means the tag was incomplete at end of input. -/
def parseStartTag (r : List Char) : Option (String × List (String × Option String) × Bool × List Char) :=
  let name := r.takeWhile (fun c => ¬ isPySpace c ∧ c ≠ '/' ∧ c ≠ '>')
  let rest := r.drop name.length
  match parseAttrs (rest.length + 1) rest [] with
  | none => none
  | some (attrs, selfClosing, rest2) => some (pyLower (String.mk name), attrs, selfClosing, rest2)

/-- Locate the end of a comment body (`-->`). -/
def findCommentEnd : List Char → Option (List Char)
  | [] => none
  | '-' :: '-' :: '>' :: r => some r
  | _ :: r => findCommentEnd r

/-- Does the input begin the close tag of the current CDATA element
(`</tag` with a name boundary after it)? -/
def cdataEndAt (tag : List Char) (rest : List Char) : Bool :=
  match rest with
  | '<' :: '/' :: r =>
    ((r.take tag.length).map pyLowerChar == tag) &&
      (match r.drop tag.length with
       | [] => true
       | c :: _ => !(c.isAlpha || c.isDigit))
  | _ => false

/-- Tokenizer mode: ordinary markup, or raw text inside `<script>`/`<style>`. -/
inductive TkMode where
  | normal
  | cdata (tag : String)
  deriving DecidableEq, Repr

/-- Emit the pending text (if any) as one text event; the pending text is
held in reverse order. -/
def tkFlush (acc : List Char) : List HEvent :=
  if acc = [] then [] else [.text (String.mk acc.reverse)]

/-- Main tokenizer loop.  `acc` holds pending text in reverse order; a text
event is flushed whenever markup is recognised or the input ends with
complete text. -/
def tkGo (fuel : Nat) (mode : TkMode) (acc : List Char) (rest : List Char) : List HEvent :=
  match fuel with
  | 0 => tkFlush acc
  | fuel + 1 =>
    match mode with
    | .cdata tag =>
      match rest with
      | [] => []
      | c :: r =>
        if cdataEndAt tag.data rest then tkFlush acc ++ tkGo fuel .normal [] rest
        else tkGo fuel (.cdata tag) (c :: acc) r
    | .normal =>
      match rest with
      | [] => tkFlush acc
      | c :: r =>
        if c = '&' then
          match parseCharref r with
          | some (e, r2) => tkGo fuel .normal (e :: acc) r2
          | none => tkGo fuel .normal ('&' :: acc) r
        else if c = '<' then
          match r with
          | [] => tkFlush acc
          | d :: r2 =>
            if d = '/' then
              match r2 with
              | [] => tkFlush acc
              | e :: _ =>
                if e.isAlpha then
                  match parseEndTagCore r2 with
                  | some (name, rest2) => tkFlush acc ++ [.endTag name] ++ tkGo fuel .normal [] rest2
                  | none => tkFlush acc
                else
                  match splitOnce '>' r2 with
                  | some (_, rest2) => tkFlush acc ++ tkGo fuel .normal [] rest2
                  | none => tkFlush acc
            else if d = '!' then
              match r2 with
              | '-' :: '-' :: r3 =>
                match findCommentEnd r3 with
                | some rest2 => tkFlush acc ++ tkGo fuel .normal [] rest2
                | none => tkFlush acc
              | _ =>
                match splitOnce '>' r2 with
                | some (_, rest2) => tkFlush acc ++ tkGo fuel .normal [] rest2
                | none => tkFlush acc
            else if d = '?' then
              match splitOnce '>' r2 with
              | some (_, rest2) => tkFlush acc ++ tkGo fuel .normal [] rest2
              | none => tkFlush acc
            else if d.isAlpha then
              match parseStartTag r with
              | some (name, attrs, selfClosing, rest2) =>
                tkFlush acc ++
                  (if selfClosing then .startTag name attrs :: .endTag name :: tkGo fuel .normal [] rest2
                   else if name = "script" ∨ name = "style" then
                     .startTag name attrs :: tkGo fuel (.cdata name) [] rest2
                   else .startTag name attrs :: tkGo fuel .normal [] rest2)
              | none => tkFlush acc
            else
              -- a literal `<` is delivered as its own `handle_data` call
              tkFlush acc ++ [.text "<"] ++ tkGo fuel .normal [] r
        else tkGo fuel .normal (c :: acc) r

/-- Event stream of `HTMLParser.feed(html)` (without `close()`), with the
default `convert_charrefs=True`. -/
def tokenize (s : String) : List HEvent :=
  tkGo (2 * s.data.length + 2) .normal [] s.data

/-! ### The markup reducer: `HTMLTextExtractor` (app.py lines 26-51) -/

/-- `HTMLTextExtractor.SKIP_TAGS` (app.py line 30). -/
def SKIP_TAGS : List String := ["script", "style", "noscript", "head"]

/-- State of `HTMLTextExtractor`: collected text pieces and the suppression
depth.  The depth is a Python `int`, hence modelled as `Int`; its
non-negativity is a property to be proved, not a typing assumption. -/
structure HTMLTextExtractor where
  pieces : List String
  skip_depth : Int
  deriving DecidableEq, Repr

def HTMLTextExtractor.init : HTMLTextExtractor := ⟨[], 0⟩

/-- `handle_starttag` (app.py lines 37-39): entering a skipped element
increments the suppression depth; attributes are ignored. -/
def HTMLTextExtractor.handle_starttag (st : HTMLTextExtractor) (tag : String) : HTMLTextExtractor :=
  if pyLower tag ∈ SKIP_TAGS then { st with skip_depth := st.skip_depth + 1 } else st

/-- `handle_endtag` (app.py lines 41-43): leaving a skipped element
decrements the depth, guarded so the depth never goes below zero. -/
def HTMLTextExtractor.handle_endtag (st : HTMLTextExtractor) (tag : String) : HTMLTextExtractor :=
  if pyLower tag ∈ SKIP_TAGS ∧ st.skip_depth > 0 then
    { st with skip_depth := st.skip_depth - 1 }
  else st

/-- `handle_data` (app.py lines 45-47): text is collected only at depth zero. -/
def HTMLTextExtractor.handle_data (st : HTMLTextExtractor) (s : String) : HTMLTextExtractor :=
  if st.skip_depth = 0 then { st with pieces := st.pieces ++ [s] } else st

/-- Dispatch one parser event to the corresponding handler. -/
def HTMLTextExtractor.onEvent (st : HTMLTextExtractor) : HEvent → HTMLTextExtractor
  | .startTag tag _ => st.handle_starttag tag
  | .endTag tag => st.handle_endtag tag
  | .text s => st.handle_data s

/-- Feed a stream of events, as `HTMLParser.feed` drives the handlers. -/
def HTMLTextExtractor.feed (st : HTMLTextExtractor) (evs : List HEvent) : HTMLTextExtractor :=
  evs.foldl HTMLTextExtractor.onEvent st

/-- `get_text` (app.py lines 49-51): join the pieces with blanks, collapse
whitespace runs, and strip the ends. -/
def HTMLTextExtractor.get_text (st : HTMLTextExtractor) : String :=
  String.mk (pyStrip (collapseWs (pyJoin ' ' st.pieces).data))

/-- `extract_text` (app.py lines 139-142). -/
def extract_text (html : String) : String :=
  (HTMLTextExtractor.init.feed (tokenize html)).get_text

/-! ### The link classifier: `LinkExtractor` (app.py lines 54-119) -/

/-- `LinkExtractor.IGNORE_EXTENSIONS` (app.py lines 63-67). -/
def IGNORE_EXTENSIONS : List String :=
  [".png", ".jpg", ".jpeg", ".gif", ".svg", ".css", ".js",
   ".ico", ".woff", ".woff2", ".ttf", ".eot", ".pdf", ".zip", ".xml"]

/-- `LinkExtractor.IGNORE_PREFIXES` (app.py line 68). -/
def IGNORE_PREFIXES : List String := ["mailto:", "tel:", "javascript:", "#"]

/-- `LinkExtractor.IGNORE_PATH_SEGMENTS` (app.py line 69). -/
def IGNORE_PATH_SEGMENTS : List String :=
  ["rss", "feed", "cdn-cgi", "tag", "category", "page", "author"]

/-- Parent-directory path prefix computed from a URL's path.  This is the
computation of app.py lines 78-82; the orchestrator's debug branch
(lines 159-163) repeats the identical code, so both call this definition. -/
def parentBasePath (url : String) : String :=
  let parsed := pyUrlparse url
  let path_parts := (pySplitOn '/' parsed.path).filter (fun p => p ≠ "")
  if path_parts.length ≥ 2 then "/" ++ pyJoin '/' path_parts.dropLast ++ "/"
  else if path_parts ≠ [] then "/" ++ pyJoin '/' path_parts ++ "/"
  else "/"

/-- State of `LinkExtractor` (app.py lines 71-83): the base URL, its
lower-cased domain, the parent path prefix, and the links collected. -/
structure LinkExtractor where
  base_url : String
  base_domain : String
  base_path : String
  links : List String
  deriving DecidableEq, Repr

/-- `LinkExtractor.__init__` (app.py lines 71-83). -/
def LinkExtractor.init (base_url : String) : LinkExtractor :=
  let parsed := pyUrlparse base_url
  { base_url := base_url
    base_domain := pyLower parsed.netloc
    base_path := parentBasePath base_url
    links := [] }

/-- `dict(attrs).get("href")`: build a dict (later duplicates win) and look
the key up; a missing key and an explicit `None` value are both `none`. -/
def pyDictGet (attrs : List (String × Option String)) (key : String) : Option String :=
  match attrs.reverse.lookup key with
  | some v => v
  | none => none

/-- `LinkExtractor._is_article_link` (app.py lines 85-102), as a function of
the two scope fields it reads (`base_domain`, `base_path`); the method
below passes the instance's fields. -/
def isArticleLinkCore (base_domain base_path full_url : String) : Bool :=
  let parsed := pyUrlparse full_url
  if pyLower parsed.netloc ≠ base_domain then false
  else
    let path := pyRstripSlash parsed.path ++ "/"
    if ¬ pyStartswith path base_path ∨ path = base_path then false
    else
      let segments := (pySplitOn '/' parsed.path).filter (fun s => s ≠ "")
      if segments.length < 3 then false
      else if (segments.map pyLower).any (fun s => s ∈ IGNORE_PATH_SEGMENTS) then false
      else true

/-- `LinkExtractor._is_article_link` (app.py lines 85-102). -/
def LinkExtractor.is_article_link (le : LinkExtractor) (full_url : String) : Bool :=
  isArticleLinkCore le.base_domain le.base_path full_url

/-- `full.split("#")[0]`: everything before the first `#`. -/
def takeBeforeHash (s : String) : String :=
  String.mk (s.data.takeWhile (fun c => c ≠ '#'))

/-- `LinkExtractor.handle_starttag` (app.py lines 104-119). -/
def LinkExtractor.handle_starttag (le : LinkExtractor) (tag : String)
    (attrs : List (String × Option String)) : LinkExtractor :=
  if pyLower tag ≠ "a" then le
  else
    match pyDictGet attrs "href" with
    | none => le
    | some href =>
      if href = "" then le
      else if IGNORE_PREFIXES.any (fun p => pyStartswith href p) then le
      else
        let full := urljoin le.base_url href
        let parsed := pyUrlparse full
        if IGNORE_EXTENSIONS.any (fun ext => pyEndswith (pyLower parsed.path) ext) then le
        else
          let canon := takeBeforeHash full
          if (parsed.scheme = "http" ∨ parsed.scheme = "https")
              ∧ le.is_article_link canon ∧ canon ∉ le.links then
            { le with links := le.links ++ [canon] }
          else le

/-- Dispatch one parser event; `LinkExtractor` overrides only
`handle_starttag`, so end-tag and text events leave the state unchanged. -/
def LinkExtractor.onEvent (le : LinkExtractor) : HEvent → LinkExtractor
  | .startTag tag attrs => le.handle_starttag tag attrs
  | .endTag _ => le
  | .text _ => le

def LinkExtractor.feed (le : LinkExtractor) (evs : List HEvent) : LinkExtractor :=
  evs.foldl LinkExtractor.onEvent le

/-- `extract_links` (app.py lines 145-148). -/
def extract_links (html base_url : String) : List String :=
  ((LinkExtractor.init base_url).feed (tokenize html)).links

/-! ### The crawl orchestrator: `scrape_articles` (app.py lines 151-187)

The fetch layer is an explicit parameter `fetch : String → Except String
String`: `.ok body` models `fetch_html` returning the response text and
`.error msg` models it raising an exception whose `str` is `msg` (timeouts,
non-2xx statuses, network errors).  The shared session only affects which
fetches succeed, which the abstract `fetch` already captures. -/

/-- One element of the JSON array `scrape_articles` returns: a success
record, an error record, or the single debug record. -/
inductive Record where
  | success (url content : String)
  | failure (url error : String)
  | debugRec (html_length : Nat) (base_path_used : String)
      (filtered_article_links all_same_domain_links : List String)
  deriving DecidableEq, Repr

/-- The URL field of a record, when it has one. -/
def Record.urlOf : Record → Option String
  | .success url _ => some url
  | .failure url _ => some url
  | .debugRec _ _ _ _ => none

/-- `scrape_articles` (app.py lines 151-187).  The index fetch is outside
any handler, so its failure propagates; each candidate fetch is inside
`try/except`, producing an error record on failure. -/
def scrape_articles (fetch : String → Except String String) (url : String)
    (debug : Bool) : Except String (List Record) :=
  match fetch url with
  | .error exc => .error exc
  | .ok index_html =>
    let article_links := extract_links index_html url
    if debug then
      let base_path := parentBasePath url
      let rawLE := { LinkExtractor.init url with base_path := "/" }
      let rawLE := rawLE.feed (tokenize index_html)
      .ok [.debugRec index_html.length base_path article_links rawLE.links]
    else
      .ok (article_links.foldl
        (fun results link =>
          match fetch link with
          | .ok page_html =>
            let content := extract_text page_html
            if content ≠ "" then results ++ [.success link content] else results
          | .error exc => results ++ [.failure link exc])
        [])

/-! ### The endpoint: `scrape` (app.py lines 197-220)

The Flask request is modelled by the fields the handler reads: the `url`
and `debug` query parameters, whether the body advertises JSON
(`request.is_json`), and the parse of the body — `none` when
`get_json(silent=True, force=True)` would return `None` (malformed JSON),
otherwise the object's `url` field.  The handler itself is in
`Except String`: `.error` is an exception escaping the handler (Flask then
produces its generic 500 page, not the handler's structured JSON). -/

structure HttpRequest where
  args_url : Option String
  args_debug : Option String
  is_json : Bool
  json_body : Option (Option String)
  deriving DecidableEq, Repr

/-- Python truthiness of an optional string: `None` and `""` are falsy. -/
def pyFalsy : Option String → Bool
  | none => true
  | some s => s = ""

/-- JSON response payload: a record list or a structured error message. -/
inductive Payload where
  | records (rs : List Record)
  | errMsg (s : String)
  deriving DecidableEq, Repr

/-- The `/api/scrape` handler (app.py lines 197-220), returning an HTTP
status code and JSON payload, or raising. -/
def scrape_route (fetch : String → Except String String) (req : HttpRequest) :
    Except String (Nat × Payload) :=
  match (if pyFalsy req.args_url ∧ req.is_json then
           match req.json_body with
           | none => Except.error "AttributeError: NoneType object has no attribute get"
           | some j => Except.ok j
         else Except.ok req.args_url) with
  | .error exc => .error exc
  | .ok url =>
    if pyFalsy url then .ok (400, .errMsg "Missing required parameter: url")
    else
      let debug := pyLower (req.args_debug.getD "") ∈ ["1", "true"]
      match scrape_articles fetch (url.getD "") debug with
      | .ok results => .ok (200, .records results)
      | .error exc => .ok (500, .errMsg exc)

/-! ### Helper lemmas: the normal-mode crawl loop as a `filterMap` -/

/-- Outcome of one candidate in the normal-mode loop: an error record on a
failed fetch, a success record on a fetched page with non-empty reduced
text, nothing on a fetched page with empty reduced text. -/
def candidateRecord (fetch : String → Except String String) (link : String) : Option Record :=
  match fetch link with
  | .ok page_html =>
    let content := extract_text page_html
    if content ≠ "" then some (.success link content) else none
  | .error exc => some (.failure link exc)

theorem foldl_candidateRecord (fetch : String → Except String String)
    (ls : List String) (acc : List Record) :
    ls.foldl
      (fun results link =>
        match fetch link with
        | .ok page_html =>
          let content := extract_text page_html
          if content ≠ "" then results ++ [.success link content] else results
        | .error exc => results ++ [.failure link exc])
      acc
    = acc ++ ls.filterMap (candidateRecord fetch) := by
  induction ls generalizing acc with
  | nil => simp
  | cons l ls ih =>
    rw [List.foldl_cons, List.filterMap_cons]
    have hstep :
        (fun results link =>
          match fetch link with
          | Except.ok page_html =>
            let content := extract_text page_html
            if content ≠ "" then results ++ [Record.success link content] else results
          | Except.error exc => results ++ [Record.failure link exc]) acc l
        = acc ++ (candidateRecord fetch l).toList := by
      unfold candidateRecord
      rcases hf : fetch l with e | p
      · simp [hf]
      · by_cases hc : extract_text p ≠ "" <;> simp [hf, hc]
    simp only [hstep]
    rw [ih]
    cases hcr : candidateRecord fetch l <;> simp [List.append_assoc]

theorem scrape_articles_ok_normal (fetch : String → Except String String)
    (url html : String) (h : fetch url = .ok html) :
    scrape_articles fetch url false
      = .ok ((extract_links html url).filterMap (candidateRecord fetch)) := by
  simp only [scrape_articles, h, if_neg Bool.false_ne_true, foldl_candidateRecord,
    List.nil_append]

theorem scrape_articles_ok_debug (fetch : String → Except String String)
    (url html : String) (h : fetch url = .ok html) :
    scrape_articles fetch url true
      = .ok [.debugRec html.length (parentBasePath url) (extract_links html url)
              (({ LinkExtractor.init url with base_path := "/" }).feed (tokenize html)).links] := by
  simp only [scrape_articles, h, if_true]

theorem candidateRecord_urlOf (fetch : String → Except String String)
    (link : String) (r : Record) (h : candidateRecord fetch link = some r) :
    r.urlOf = some link := by
  unfold candidateRecord at h
  cases hf : fetch link with
  | ok p =>
    rw [hf] at h
    by_cases hc : extract_text p ≠ ""
    · simp only [if_pos hc, Option.some.injEq] at h
      subst h; rfl
    · simp [if_neg hc] at h
  | error e =>
    rw [hf] at h
    simp only [Option.some.injEq] at h
    subst h; rfl

/-! ### Concrete crawl scenarios used by the witnesses -/

def wUrl : String := "https://ex.com/media/news/"

def wHtml : String :=
  "<a href=\"/media/news/a1\">1</a><a href=\"/media/news/a2\">2</a><a href=\"/media/news/a3\">3</a>"

def wL1 : String := "https://ex.com/media/news/a1"
def wL2 : String := "https://ex.com/media/news/a2"
def wL3 : String := "https://ex.com/media/news/a3"

/-- Index and two good article pages; the middle candidate's fetch fails. -/
def wFetch : String → Except String String := fun u =>
  if u = wUrl then .ok wHtml
  else if u = wL1 then .ok "<p>one</p>"
  else if u = wL2 then .error "boom"
  else if u = wL3 then .ok "<p>three</p>"
  else .error "404"

def wHtml2 : String :=
  "<a href=\"/media/news/a1\">1</a><a href=\"/media/news/a2\">2</a>"

/-- Index with two candidates; the first page reduces to empty text. -/
def wFetchEmpty : String → Except String String := fun u =>
  if u = wUrl then .ok wHtml2
  else if u = wL1 then .ok "<p></p>"
  else if u = wL2 then .ok "<p>two</p>"
  else .error "404"

/-- Serves only the index page; every candidate fetch would fail. -/
def wFetchNoCand : String → Except String String := fun u =>
  if u = wUrl then .ok wHtml else .error "candidates unavailable"

/-- A fetch layer that always fails. -/
def wFetchDown : String → Except String String := fun _ => .error "down"

/-! ### Claim C1 — candidate failures are isolated, order preserved -/

/-- C1: in normal mode, once the index fetch succeeds the result is the
classifier's candidate list mapped in order through the per-candidate
outcome (error record on fetch failure, success record on non-empty
reduced text), so one failure never aborts the crawl; in particular three
candidates with one failing fetch give two success records and one error
record in the original order. -/
theorem crawl_error_isolation_and_order :
    (∀ (fetch : String → Except String String) (url html : String),
      fetch url = .ok html →
      scrape_articles fetch url false
        = .ok ((extract_links html url).filterMap (candidateRecord fetch)))
    ∧ (∀ (fetch : String → Except String String) (url html l1 l2 l3 h1 h3 e : String),
        fetch url = .ok html →
        extract_links html url = [l1, l2, l3] →
        fetch l1 = .ok h1 → extract_text h1 ≠ "" →
        fetch l2 = .error e →
        fetch l3 = .ok h3 → extract_text h3 ≠ "" →
        scrape_articles fetch url false
          = .ok [.success l1 (extract_text h1), .failure l2 e,
                 .success l3 (extract_text h3)]) := by
  refine ⟨scrape_articles_ok_normal, ?_⟩
  intro fetch url html l1 l2 l3 h1 h3 e hidx hlinks hf1 ht1 hf2 hf3 ht3
  rw [scrape_articles_ok_normal fetch url html hidx, hlinks]
  simp [candidateRecord, hf1, hf2, hf3, ht1, ht3]

theorem crawl_error_isolation_and_order_witness :
    wFetch wUrl = .ok wHtml
    ∧ extract_links wHtml wUrl = [wL1, wL2, wL3]
    ∧ scrape_articles wFetch wUrl false
        = .ok [.success wL1 (extract_text "<p>one</p>"), .failure wL2 "boom",
               .success wL3 (extract_text "<p>three</p>")] :=
  ⟨rfl, by decide,
    crawl_error_isolation_and_order.2 wFetch wUrl wHtml wL1 wL2 wL3
      "<p>one</p>" "<p>three</p>" "boom"
      rfl (by decide) rfl (by decide) rfl rfl (by decide)⟩

/-! ### Claim C2 — an index fetch failure is fatal -/

/-- C2: when the index fetch fails, the crawl returns that single top-level
failure and no article records at all, in either mode. -/
theorem index_fetch_failure_fatal (fetch : String → Except String String)
    (url e : String) (debug : Bool) (h : fetch url = .error e) :
    scrape_articles fetch url debug = .error e := by
  simp [scrape_articles, h]

theorem index_fetch_failure_fatal_witness :
    wFetchDown wUrl = .error "down"
    ∧ scrape_articles wFetchDown wUrl false = .error "down" :=
  ⟨rfl, index_fetch_failure_fatal wFetchDown wUrl "down" false rfl⟩

/-! ### Claim C3 — empty-content candidates are silently dropped -/

/-- C3: a candidate whose fetch succeeds but whose reduced text is empty
contributes no record at all to a normal-mode crawl — neither a success
record nor an error record carries its URL. -/
theorem empty_content_silently_dropped (fetch : String → Except String String)
    (url html link page : String) (rs : List Record)
    (hidx : fetch url = .ok html)
    (hmem : link ∈ extract_links html url)
    (hfl : fetch link = .ok page)
    (hempty : extract_text page = "")
    (hrun : scrape_articles fetch url false = .ok rs) :
    ∀ r ∈ rs, r.urlOf ≠ some link := by
  rw [scrape_articles_ok_normal fetch url html hidx] at hrun
  injection hrun with hrs
  subst hrs
  intro r hr heq
  obtain ⟨a, hal, har⟩ := List.mem_filterMap.mp hr
  have hu := candidateRecord_urlOf fetch a r har
  rw [hu] at heq
  injection heq with heq
  subst heq
  have hnone : candidateRecord fetch a = none := by
    simp [candidateRecord, hfl, hempty]
  rw [hnone] at har
  exact Option.noConfusion har

theorem empty_content_silently_dropped_witness :
    extract_text "<p></p>" = ""
    ∧ scrape_articles wFetchEmpty wUrl false = .ok [.success wL2 (extract_text "<p>two</p>")]
    ∧ Record.urlOf (.success wL2 (extract_text "<p>two</p>")) ≠ some wL1 :=
  ⟨rfl, rfl,
    empty_content_silently_dropped wFetchEmpty wUrl wHtml2 wL1 "<p></p>"
      [.success wL2 (extract_text "<p>two</p>")]
      rfl (by decide) rfl rfl rfl
      (.success wL2 (extract_text "<p>two</p>")) (by decide)⟩

/-! ### Claim C4 — debug mode fetches no candidate and reports diagnostics -/

/-- C4: with `debug` set and a successful index fetch, the result is the
single diagnostic record (HTML length, computed base path, filtered
candidate list, and the classifier run with scope relaxed to `/`), and the
outcome does not depend on what any candidate fetch would return — no
candidate is fetched. -/
theorem debug_mode_no_candidate_fetch :
    (∀ (fetch : String → Except String String) (url html : String),
      fetch url = .ok html →
      scrape_articles fetch url true
        = .ok [.debugRec html.length (parentBasePath url) (extract_links html url)
                (({ LinkExtractor.init url with base_path := "/" }).feed (tokenize html)).links])
    ∧ (∀ (fetch fetchB : String → Except String String) (url html : String),
        fetch url = .ok html → fetchB url = .ok html →
        scrape_articles fetch url true = scrape_articles fetchB url true) := by
  refine ⟨scrape_articles_ok_debug, ?_⟩
  intro fetch fetchB url html h hB
  rw [scrape_articles_ok_debug fetch url html h, scrape_articles_ok_debug fetchB url html hB]

theorem debug_mode_no_candidate_fetch_witness :
    wFetch wUrl = .ok wHtml
    ∧ wFetchNoCand wUrl = .ok wHtml
    ∧ scrape_articles wFetch wUrl true = scrape_articles wFetchNoCand wUrl true :=
  ⟨rfl, rfl, debug_mode_no_candidate_fetch.2 wFetch wFetchNoCand wUrl wHtml rfl rfl⟩

/-! ### Claim C5 — the suppression depth never goes negative -/

/-- C5: the reducer's suppression depth stays non-negative after every
event (from any non-negative state, hence along any event stream from the
initial state), and a close event for a suppressed tag kind arriving at
depth zero leaves the whole state — depth and collected output — unchanged. -/
theorem suppression_depth_nonneg :
    (∀ (st : HTMLTextExtractor), 0 ≤ st.skip_depth →
      ∀ ev, 0 ≤ (st.onEvent ev).skip_depth)
    ∧ (∀ evs, 0 ≤ (HTMLTextExtractor.init.feed evs).skip_depth)
    ∧ (∀ (st : HTMLTextExtractor) (tag : String), pyLower tag ∈ SKIP_TAGS →
        st.skip_depth = 0 → st.handle_endtag tag = st) := by
  have hstep : ∀ (st : HTMLTextExtractor), 0 ≤ st.skip_depth →
      ∀ ev, 0 ≤ (st.onEvent ev).skip_depth := by
    intro st h ev
    cases ev with
    | startTag tag attrs =>
      simp only [HTMLTextExtractor.onEvent, HTMLTextExtractor.handle_starttag]
      split
      · simp only []
        omega
      · exact h
    | endTag tag =>
      simp only [HTMLTextExtractor.onEvent, HTMLTextExtractor.handle_endtag]
      split
      · rename_i hc
        simp only []
        omega
      · exact h
    | text s =>
      simp only [HTMLTextExtractor.onEvent, HTMLTextExtractor.handle_data]
      split <;> exact h
  refine ⟨hstep, ?_, ?_⟩
  · have hfeed : ∀ evs (st : HTMLTextExtractor), 0 ≤ st.skip_depth →
        0 ≤ (st.feed evs).skip_depth := by
      intro evs
      induction evs with
      | nil => intro st h; exact h
      | cons ev evs ih =>
        intro st h
        exact ih _ (hstep st h ev)
    intro evs
    exact hfeed evs HTMLTextExtractor.init (by decide)
  · intro st tag hmem h0
    unfold HTMLTextExtractor.handle_endtag
    rw [if_neg]
    intro hc
    omega

theorem suppression_depth_nonneg_witness :
    (0 : Int) ≤ ((HTMLTextExtractor.mk [] 0).onEvent (.endTag "script")).skip_depth
    ∧ pyLower "script" ∈ SKIP_TAGS
    ∧ (HTMLTextExtractor.mk ["kept"] 0).handle_endtag "script" = HTMLTextExtractor.mk ["kept"] 0 :=
  ⟨suppression_depth_nonneg.1 (HTMLTextExtractor.mk [] 0) (by decide) (.endTag "script"),
   by decide,
   suppression_depth_nonneg.2.2 (HTMLTextExtractor.mk ["kept"] 0) "script" (by decide) rfl⟩

/-! ### Claim C9 — endpoint error contract (and the malformed-JSON crash) -/

/-- C9 evaluation: a missing URL gives a 400 with a structured message and
a failing crawl gives a 500 with a structured message, but a request with
a JSON content type, an unparseable body and no `url` query parameter
makes the handler raise (`get_json(silent=True)` returns `None`, then
`.get` on `None` raises `AttributeError` outside the `try` block) instead
of producing a structured error response. -/
theorem scrape_route_missing_url_json_crash :
    scrape_route wFetchDown ⟨none, none, true, none⟩
      = .error "AttributeError: NoneType object has no attribute get"
    ∧ scrape_route wFetchDown ⟨none, none, false, none⟩
      = .ok (400, .errMsg "Missing required parameter: url")
    ∧ scrape_route wFetchDown ⟨some "https://ex.com/a/b/", none, false, none⟩
      = .ok (500, .errMsg "down") :=
  ⟨rfl, rfl, rfl⟩

/-! ### Claim C10 — anchors without a usable `href` are skipped -/

/-- C10: an anchor tag with no `href` attribute (or a valueless one, which
`dict(attrs).get` cannot distinguish) or with an empty-string `href`
leaves the classifier state unchanged. -/
theorem anchor_missing_href_skipped (le : LinkExtractor) (tag : String)
    (attrs : List (String × Option String))
    (htag : pyLower tag = "a")
    (h : pyDictGet attrs "href" = none ∨ pyDictGet attrs "href" = some "") :
    le.handle_starttag tag attrs = le := by
  unfold LinkExtractor.handle_starttag
  rw [htag]
  rcases h with h | h <;> simp [h]

theorem anchor_missing_href_skipped_witness :
    pyLower "A" = "a"
    ∧ pyDictGet [("href", none)] "href" = none
    ∧ (LinkExtractor.init wUrl).handle_starttag "A" [("href", none)] = LinkExtractor.init wUrl :=
  ⟨rfl, rfl,
   anchor_missing_href_skipped (LinkExtractor.init wUrl) "A" [("href", none)] rfl (Or.inl rfl)⟩

/-! ### Helper lemmas: whitespace collapse and strip

These support the analysis of `get_text`'s post-processing: collapsing
produces a string whose whitespace is single blanks with no two adjacent,
and collapsing then stripping is idempotent. -/

/-- No two adjacent characters are both whitespace. -/
abbrev NoWsRun (l : List Char) : Prop :=
  List.Chain' (fun a b => ¬ (isPySpace a = true ∧ isPySpace b = true)) l

theorem collapseWs_cons_of_not_space (c : Char) (cs : List Char)
    (hc : ¬ isPySpace c = true) : collapseWs (c :: cs) = c :: collapseWs cs := by
  conv_lhs => unfold collapseWs
  simp [hc]

theorem collapseWs_singleton_space (c : Char) (hc : isPySpace c = true) :
    collapseWs [c] = [' '] := by
  conv_lhs => unfold collapseWs
  simp [hc]

theorem collapseWs_cons_space_space (c d : Char) (cs : List Char)
    (hc : isPySpace c = true) (hd : isPySpace d = true) :
    collapseWs (c :: d :: cs) = collapseWs (d :: cs) := by
  conv_lhs => unfold collapseWs
  simp [hc, hd]

theorem collapseWs_cons_space_nonspace (c d : Char) (cs : List Char)
    (hc : isPySpace c = true) (hd : ¬ isPySpace d = true) :
    collapseWs (c :: d :: cs) = ' ' :: collapseWs (d :: cs) := by
  conv_lhs => unfold collapseWs
  simp [hc, hd]

theorem collapseWs_blank (l : List Char) :
    ∀ c ∈ collapseWs l, isPySpace c = true → c = ' ' := by
  induction l with
  | nil => simp [collapseWs]
  | cons c cs ih =>
    intro a ha hsp
    by_cases hc : isPySpace c = true
    · cases cs with
      | nil =>
        rw [collapseWs_singleton_space c hc] at ha
        simpa using ha
      | cons d cs' =>
        by_cases hd : isPySpace d = true
        · rw [collapseWs_cons_space_space c d cs' hc hd] at ha
          exact ih a ha hsp
        · rw [collapseWs_cons_space_nonspace c d cs' hc hd] at ha
          rcases List.mem_cons.mp ha with rfl | ha
          · rfl
          · exact ih a ha hsp
    · rw [collapseWs_cons_of_not_space c cs hc] at ha
      rcases List.mem_cons.mp ha with rfl | ha
      · exact absurd hsp hc
      · exact ih a ha hsp

theorem collapseWs_noWsRun (l : List Char) : NoWsRun (collapseWs l) := by
  induction l with
  | nil => simp [collapseWs, NoWsRun]
  | cons c cs ih =>
    by_cases hc : isPySpace c = true
    · cases cs with
      | nil =>
        rw [collapseWs_singleton_space c hc]
        simp [NoWsRun]
      | cons d cs' =>
        by_cases hd : isPySpace d = true
        · rw [collapseWs_cons_space_space c d cs' hc hd]
          exact ih
        · rw [collapseWs_cons_space_nonspace c d cs' hc hd]
          refine List.chain'_cons'.mpr ⟨?_, ih⟩
          intro b hb
          rw [collapseWs_cons_of_not_space d cs' hd] at hb
          simp only [List.head?_cons, Option.mem_def, Option.some.injEq] at hb
          subst hb
          simp [hd]
    · rw [collapseWs_cons_of_not_space c cs hc]
      refine List.chain'_cons'.mpr ⟨?_, ih⟩
      intro b _
      simp [hc]

theorem collapseWs_of_normalized (l : List Char)
    (hblank : ∀ c ∈ l, isPySpace c = true → c = ' ')
    (hchain : NoWsRun l) : collapseWs l = l := by
  induction l with
  | nil => rfl
  | cons c cs ih =>
    by_cases hc : isPySpace c = true
    · have hcblank : c = ' ' := hblank c (List.mem_cons_self c cs) hc
      cases cs with
      | nil =>
        rw [collapseWs_singleton_space c hc, hcblank]
      | cons d cs' =>
        have hd : ¬ isPySpace d = true := by
          have hpair := List.chain'_cons.mp hchain
          intro hdp
          exact hpair.1 ⟨hc, hdp⟩
        rw [collapseWs_cons_space_nonspace c d cs' hc hd, hcblank]
        congr 1
        exact ih (fun a ha hs => hblank a (List.mem_cons_of_mem c ha) hs)
          (List.Chain'.tail hchain)
    · rw [collapseWs_cons_of_not_space c cs hc]
      congr 1
      exact ih (fun a ha hs => hblank a (List.mem_cons_of_mem c ha) hs)
        (List.Chain'.tail hchain)

theorem head?_dropWhile_not_py (l : List Char) (a : Char)
    (h : (l.dropWhile isPySpace).head? = some a) : ¬ isPySpace a = true := by
  induction l with
  | nil => simp at h
  | cons c cs ih =>
    rw [List.dropWhile_cons] at h
    by_cases hc : isPySpace c = true
    · rw [if_pos hc] at h
      exact ih h
    · rw [if_neg hc] at h
      simp only [List.head?_cons, Option.some.injEq] at h
      subst h
      exact hc

theorem chain'_of_suffix {R : Char → Char → Prop} {s l : List Char}
    (hsuf : s <:+ l) (h : List.Chain' R l) : List.Chain' R s := by
  obtain ⟨t, rfl⟩ := hsuf
  exact (List.chain'_append.mp h).2.1

theorem noWsRun_reverse (l : List Char) (h : NoWsRun l) : NoWsRun l.reverse :=
  List.chain'_reverse.mpr (h.imp (fun _ _ hab hba => hab ⟨hba.2, hba.1⟩))

theorem mem_pyStrip (l : List Char) (a : Char) (h : a ∈ pyStrip l) : a ∈ l := by
  unfold pyStrip at h
  rw [List.mem_reverse] at h
  have h1 := List.Sublist.mem h (List.dropWhile_sublist _)
  rw [List.mem_reverse] at h1
  exact List.Sublist.mem h1 (List.dropWhile_sublist _)

theorem noWsRun_pyStrip (l : List Char) (h : NoWsRun l) : NoWsRun (pyStrip l) := by
  unfold pyStrip
  exact noWsRun_reverse _ (chain'_of_suffix (List.dropWhile_suffix _)
    (noWsRun_reverse _ (chain'_of_suffix (List.dropWhile_suffix _) h)))

theorem getLast?_of_suffix {s l : List Char} (hsuf : s <:+ l) (a : Char)
    (h : s.getLast? = some a) : l.getLast? = some a := by
  obtain ⟨t, rfl⟩ := hsuf
  rw [List.getLast?_append_of_ne_nil]
  · exact h
  · intro hnil
    subst hnil
    simp at h

theorem pyStrip_head_not_space (l : List Char) (a : Char)
    (h : (pyStrip l).head? = some a) : ¬ isPySpace a = true := by
  unfold pyStrip at h
  rw [List.head?_reverse] at h
  have h2 := getLast?_of_suffix (List.dropWhile_suffix isPySpace) a h
  rw [List.getLast?_reverse] at h2
  exact head?_dropWhile_not_py l a h2

theorem pyStrip_getLast_not_space (l : List Char) (a : Char)
    (h : (pyStrip l).getLast? = some a) : ¬ isPySpace a = true := by
  unfold pyStrip at h
  rw [List.getLast?_reverse] at h
  exact head?_dropWhile_not_py _ a h

theorem dropWhile_eq_self_of_head (l : List Char)
    (h : ∀ a, l.head? = some a → ¬ isPySpace a = true) :
    l.dropWhile isPySpace = l := by
  cases l with
  | nil => rfl
  | cons c cs => rw [List.dropWhile_cons, if_neg (h c rfl)]

theorem pyStrip_eq_self (l : List Char)
    (hh : ∀ a, l.head? = some a → ¬ isPySpace a = true)
    (hl : ∀ a, l.getLast? = some a → ¬ isPySpace a = true) : pyStrip l = l := by
  unfold pyStrip
  rw [dropWhile_eq_self_of_head l hh]
  rw [dropWhile_eq_self_of_head l.reverse
    (fun a ha => hl a (by rwa [List.head?_reverse] at ha))]
  exact List.reverse_reverse l

/-- Collapsing and stripping an already collapsed-and-stripped character
list changes nothing: the core of whitespace-normalization idempotence. -/
theorem stripCollapse_idem (x : List Char) :
    pyStrip (collapseWs (pyStrip (collapseWs x))) = pyStrip (collapseWs x) := by
  have hblank : ∀ c ∈ pyStrip (collapseWs x), isPySpace c = true → c = ' ' :=
    fun c hc => collapseWs_blank x c (mem_pyStrip _ c hc)
  have hchain : NoWsRun (pyStrip (collapseWs x)) :=
    noWsRun_pyStrip _ (collapseWs_noWsRun x)
  rw [collapseWs_of_normalized _ hblank hchain]
  exact pyStrip_eq_self _
    (fun a ha => pyStrip_head_not_space _ a ha)
    (fun a ha => pyStrip_getLast_not_space _ a ha)

/-! ### Helper lemmas: tokenizing markup-free text -/

theorem stringMk_data (s : String) : String.mk s.data = s := rfl

theorem tkGo_plain (fuel : Nat) :
    ∀ (acc rest : List Char), rest.length < fuel →
      (∀ c ∈ rest, c ≠ '<' ∧ c ≠ '&') →
      tkGo fuel .normal acc rest = tkFlush (rest.reverse ++ acc) := by
  induction fuel with
  | zero =>
    intro acc rest h _
    omega
  | succ fuel ih =>
    intro acc rest hlen hch
    cases rest with
    | nil => simp [tkGo]
    | cons c r =>
      have hc := hch c (List.mem_cons_self c r)
      simp only [tkGo]
      rw [if_neg hc.2, if_neg hc.1]
      rw [ih (c :: acc) r (by simp only [List.length_cons] at hlen; omega)
        (fun d hd => hch d (List.mem_cons_of_mem c hd))]
      simp [List.append_assoc]

theorem tokenize_plain (s : String) (h : ∀ c ∈ s.data, c ≠ '<' ∧ c ≠ '&') :
    tokenize s = tkFlush s.data.reverse := by
  unfold tokenize
  rw [tkGo_plain (2 * s.data.length + 2) [] s.data (by omega) h]
  rw [List.append_nil]

theorem tkFlush_reverse_of_ne_nil (s : String) (h : s.data ≠ []) :
    tkFlush s.data.reverse = [.text s] := by
  unfold tkFlush
  rw [if_neg (by simpa using h), List.reverse_reverse]

/-! ### Claim C6 — reduce is *not* idempotent in general; it is on
markup-free output -/

/-- The counterexample input: its character references decode to script
markup in the reduced text, which a second reduction then parses. -/
def wBadHtml : String := "&lt;script&gt;x&lt;/script&gt;y"

/-- C6 counterexample: `reduce(reduce(h)) ≠ reduce(h)` at `wBadHtml` —
the first pass yields the text `<script>x</script>y`, the second parses it
as markup and yields `y`. -/
theorem reduce_not_idempotent_cex :
    extract_text (extract_text wBadHtml) ≠ extract_text wBadHtml := by decide

/-- C6 (amended): the reducer is idempotent on every input whose reduced
text is free of markup-significant characters (`<` and `&`); for such
output a second pass sees one text event and whitespace normalization is
idempotent. -/
theorem reduce_idempotent_on_plain (h : String)
    (hplain : ∀ c ∈ (extract_text h).data, c ≠ '<' ∧ c ≠ '&') :
    extract_text (extract_text h) = extract_text h := by
  by_cases hnil : (extract_text h).data = []
  · have h0 : extract_text h = "" := by
      rw [← stringMk_data (extract_text h), hnil]
    rw [h0]
    rfl
  · have htok : tokenize (extract_text h) = [.text (extract_text h)] := by
      rw [tokenize_plain _ hplain, tkFlush_reverse_of_ne_nil _ hnil]
    show (HTMLTextExtractor.init.feed (tokenize (extract_text h))).get_text = extract_text h
    rw [htok]
    have hfeed : HTMLTextExtractor.init.feed [.text (extract_text h)]
        = ⟨[extract_text h], 0⟩ := rfl
    rw [hfeed]
    show String.mk (pyStrip (collapseWs (pyJoin ' ' [extract_text h]).data))
        = extract_text h
    have hjoin : pyJoin ' ' [extract_text h] = extract_text h := rfl
    rw [hjoin]
    have hdata : (extract_text h).data
        = pyStrip (collapseWs
            (pyJoin ' ' ((HTMLTextExtractor.init.feed (tokenize h)).pieces)).data) := rfl
    conv_lhs => rw [hdata]
    rw [stripCollapse_idem]
    rfl

theorem reduce_idempotent_on_plain_witness :
    (∀ c ∈ (extract_text "a  b").data, c ≠ '<' ∧ c ≠ '&')
    ∧ extract_text (extract_text "a  b") = extract_text "a  b" :=
  ⟨by decide, reduce_idempotent_on_plain "a  b" (by decide)⟩

/-! ### Claim C7 — the base-path formula -/

/-- The spec's base-path formula (§4.2), by cases on the number of
non-empty path segments: `≥2` segments → `/` + all but the last + `/`;
exactly one → `/<segment>/`; none → `/`. -/
def basePathSpec (url : String) : String :=
  let segments := (pySplitOn '/' (pyUrlparse url).path).filter (fun p => p ≠ "")
  match segments with
  | [] => "/"
  | [s] => "/" ++ s ++ "/"
  | s :: t :: rest => "/" ++ pyJoin '/' ((s :: t :: rest).dropLast) ++ "/"

theorem pyEndswith_append_slash (s : String) : pyEndswith (s ++ "/") "/" = true := by
  have h : ("/" : String).data <:+ (s ++ "/").data := by
    rw [String.data_append]
    exact List.suffix_append s.data "/".data
  exact List.isSuffixOf_iff_suffix.mpr h

/-- C7: the classifier's path prefix agrees with the spec's segment
formula for every base URL, always carries a trailing slash, and the
prefix comparison is case-sensitive (a candidate matching the prefix only
up to letter case is rejected). -/
theorem base_path_formula :
    (∀ url, (LinkExtractor.init url).base_path = basePathSpec url)
    ∧ (∀ url, pyEndswith (LinkExtractor.init url).base_path "/" = true)
    ∧ (LinkExtractor.init "https://ex.com/Blog/Posts/").base_path = "/Blog/"
    ∧ (LinkExtractor.init "https://ex.com/Blog/Posts/").is_article_link
        "https://ex.com/Blog/x/y" = true
    ∧ (LinkExtractor.init "https://ex.com/Blog/Posts/").is_article_link
        "https://ex.com/blog/x/y" = false := by
  have hinit : ∀ url, (LinkExtractor.init url).base_path = parentBasePath url :=
    fun _ => rfl
  have hform : ∀ url, parentBasePath url = basePathSpec url := by
    intro url
    simp only [parentBasePath, basePathSpec]
    generalize (pySplitOn '/' (pyUrlparse url).path).filter (fun p => p ≠ "") = segs
    rcases segs with _ | ⟨a, _ | ⟨b, t⟩⟩
    · simp
    · simp [pyJoin]
    · have hlen : (a :: b :: t).length ≥ 2 := by
        simp only [List.length_cons]
        omega
      rw [if_pos hlen]
  have hends : ∀ url, pyEndswith (parentBasePath url) "/" = true := by
    intro url
    rw [hform url]
    simp only [basePathSpec]
    generalize (pySplitOn '/' (pyUrlparse url).path).filter (fun p => p ≠ "") = segs
    rcases segs with _ | ⟨a, _ | ⟨b, t⟩⟩
    · decide
    · exact pyEndswith_append_slash _
    · exact pyEndswith_append_slash _
  exact ⟨fun url => (hinit url).trans (hform url),
    fun url => by rw [hinit url]; exact hends url,
    by decide, by decide, by decide⟩

/-! ### Claim C8 — dedup keeps first occurrences

`handle_starttag` appends a canonical URL only when absent, so the links
list is the candidate stream with later duplicates removed.  `dedupFrom
seen xs` removes from `xs` every element already seen (or already emitted),
keeping first occurrences in order. -/

/-- Remove elements already in `seen`, keeping first occurrences. -/
def dedupFrom (seen : List String) : List String → List String
  | [] => []
  | x :: xs => if x ∈ seen then dedupFrom seen xs else x :: dedupFrom (x :: seen) xs

theorem dedupFrom_congr (s t xs : List String) (h : ∀ a, a ∈ s ↔ a ∈ t) :
    dedupFrom s xs = dedupFrom t xs := by
  induction xs generalizing s t with
  | nil => rfl
  | cons x xs ih =>
    simp only [dedupFrom]
    by_cases hx : x ∈ s
    · rw [if_pos hx, if_pos ((h x).mp hx)]
      exact ih s t h
    · rw [if_neg hx, if_neg (fun hh => hx ((h x).mpr hh))]
      exact congrArg _ (ih (x :: s) (x :: t) (fun a => by simp [h a]))

theorem mem_dedupFrom_not_seen (seen xs : List String) (a : String)
    (h : a ∈ dedupFrom seen xs) : a ∉ seen := by
  induction xs generalizing seen with
  | nil => simp [dedupFrom] at h
  | cons x xs ih =>
    simp only [dedupFrom] at h
    by_cases hx : x ∈ seen
    · rw [if_pos hx] at h
      exact ih seen h
    · rw [if_neg hx] at h
      rcases List.mem_cons.mp h with rfl | h
      · exact hx
      · intro ha
        exact ih (x :: seen) h (List.mem_cons_of_mem x ha)

theorem dedupFrom_nodup (seen xs : List String) : (dedupFrom seen xs).Nodup := by
  induction xs generalizing seen with
  | nil => simp [dedupFrom]
  | cons x xs ih =>
    simp only [dedupFrom]
    by_cases hx : x ∈ seen
    · rw [if_pos hx]
      exact ih seen
    · rw [if_neg hx]
      refine List.nodup_cons.mpr ⟨?_, ih (x :: seen)⟩
      intro hmem
      exact (mem_dedupFrom_not_seen _ _ _ hmem) (List.mem_cons_self x seen)

/-- The candidate a single anchor start-tag contributes, before the
membership check: `handle_starttag` with its state-dependence restricted to
the three immutable scope fields. -/
def anchorCandidate (base_url base_domain base_path : String) (tag : String)
    (attrs : List (String × Option String)) : Option String :=
  if pyLower tag ≠ "a" then none
  else
    match pyDictGet attrs "href" with
    | none => none
    | some href =>
      if href = "" then none
      else if IGNORE_PREFIXES.any (fun p => pyStartswith href p) then none
      else
        let full := urljoin base_url href
        let parsed := pyUrlparse full
        if IGNORE_EXTENSIONS.any (fun ext => pyEndswith (pyLower parsed.path) ext) then none
        else
          let canon := takeBeforeHash full
          if (parsed.scheme = "http" ∨ parsed.scheme = "https")
              ∧ isArticleLinkCore base_domain base_path canon then some canon
          else none

/-- The candidate one parser event contributes (anchors only). -/
def eventCandidate (base_url base_domain base_path : String) : HEvent → Option String
  | .startTag tag attrs => anchorCandidate base_url base_domain base_path tag attrs
  | .endTag _ => none
  | .text _ => none

theorem onEvent_eq_candidate (le : LinkExtractor) (ev : HEvent) :
    le.onEvent ev =
      match eventCandidate le.base_url le.base_domain le.base_path ev with
      | none => le
      | some c => if c ∈ le.links then le else { le with links := le.links ++ [c] } := by
  cases ev with
  | endTag t => rfl
  | text s => rfl
  | startTag tag attrs =>
    simp only [LinkExtractor.onEvent, LinkExtractor.handle_starttag, eventCandidate,
      anchorCandidate, LinkExtractor.is_article_link]
    by_cases h1 : pyLower tag ≠ "a"
    · simp [h1]
    · rw [if_neg h1, if_neg h1]
      cases hh : pyDictGet attrs "href" with
      | none => rfl
      | some href =>
        dsimp only
        by_cases h2 : href = ""
        · simp [h2]
        · rw [if_neg h2, if_neg h2]
          by_cases h3 : IGNORE_PREFIXES.any (fun p => pyStartswith href p)
          · simp [h3]
          · rw [if_neg h3, if_neg h3]
            by_cases h4 : IGNORE_EXTENSIONS.any
                (fun ext => pyEndswith (pyLower (pyUrlparse (urljoin le.base_url href)).path) ext)
            · simp [h4]
            · rw [if_neg h4, if_neg h4]
              by_cases h5 : ((pyUrlparse (urljoin le.base_url href)).scheme = "http"
                    ∨ (pyUrlparse (urljoin le.base_url href)).scheme = "https")
                  ∧ isArticleLinkCore le.base_domain le.base_path
                      (takeBeforeHash (urljoin le.base_url href))
              · by_cases h6 : takeBeforeHash (urljoin le.base_url href) ∈ le.links
                · rw [if_neg (fun hc => hc.2.2 h6), if_pos h5]
                  dsimp only
                  rw [if_pos h6]
                · rw [if_pos ⟨h5.1, h5.2, h6⟩, if_pos h5]
                  dsimp only
                  rw [if_neg h6]
              · rw [if_neg (fun hc => h5 ⟨hc.1, hc.2.1⟩), if_neg h5]

theorem onEvent_base_fields (le : LinkExtractor) (ev : HEvent) :
    (le.onEvent ev).base_url = le.base_url
    ∧ (le.onEvent ev).base_domain = le.base_domain
    ∧ (le.onEvent ev).base_path = le.base_path := by
  rw [onEvent_eq_candidate]
  cases eventCandidate le.base_url le.base_domain le.base_path ev with
  | none => exact ⟨rfl, rfl, rfl⟩
  | some c =>
    dsimp only
    by_cases hm : c ∈ le.links
    · rw [if_pos hm]
      exact ⟨rfl, rfl, rfl⟩
    · rw [if_neg hm]
      exact ⟨rfl, rfl, rfl⟩

theorem feed_links_dedup (evs : List HEvent) (le : LinkExtractor) :
    (le.feed evs).links
      = le.links ++ dedupFrom le.links
          (evs.filterMap (eventCandidate le.base_url le.base_domain le.base_path)) := by
  induction evs generalizing le with
  | nil => simp [LinkExtractor.feed, dedupFrom]
  | cons ev evs ih =>
    have hstep : LinkExtractor.feed le (ev :: evs) = LinkExtractor.feed (le.onEvent ev) evs := rfl
    rw [hstep]
    obtain ⟨hbu, hbd, hbp⟩ := onEvent_base_fields le ev
    rcases hc : eventCandidate le.base_url le.base_domain le.base_path ev with _ | c
    · have hle : le.onEvent ev = le := by rw [onEvent_eq_candidate, hc]
      rw [hle, ih le, List.filterMap_cons, hc]
    · by_cases hm : c ∈ le.links
      · have hle : le.onEvent ev = le := by
          rw [onEvent_eq_candidate, hc]
          exact if_pos hm
        rw [hle, ih le, List.filterMap_cons, hc]
        simp only [dedupFrom, if_pos hm]
      · have hle : le.onEvent ev = { le with links := le.links ++ [c] } := by
          rw [onEvent_eq_candidate, hc]
          exact if_neg hm
        rw [hle, ih { le with links := le.links ++ [c] }]
        simp only [List.filterMap_cons, hc]
        simp only [dedupFrom, if_neg hm]
        rw [List.append_assoc]
        simp only [List.cons_append, List.nil_append]
        congr 1
        congr 1
        exact dedupFrom_congr _ _ _ (fun a => by simp [or_comm])

/-- C8: within one classification pass the links list is exactly the
candidate stream with later duplicates removed — each canonical URL
appears once, at the position of its first occurrence — the list never
contains duplicates, and an anchor whose canonical URL was already
collected leaves the state unchanged. -/
theorem classifier_dedup_first_occurrence :
    (∀ html base_url,
      extract_links html base_url
        = dedupFrom [] ((tokenize html).filterMap
            (eventCandidate base_url
              (LinkExtractor.init base_url).base_domain
              (LinkExtractor.init base_url).base_path)))
    ∧ (∀ html base_url, (extract_links html base_url).Nodup)
    ∧ (∀ (le : LinkExtractor) (ev : HEvent) (c : String),
        eventCandidate le.base_url le.base_domain le.base_path ev = some c →
        c ∈ le.links → le.onEvent ev = le) := by
  have hmain : ∀ html base_url,
      extract_links html base_url
        = dedupFrom [] ((tokenize html).filterMap
            (eventCandidate base_url
              (LinkExtractor.init base_url).base_domain
              (LinkExtractor.init base_url).base_path)) := by
    intro html base_url
    unfold extract_links
    rw [feed_links_dedup]
    rfl
  refine ⟨hmain, ?_, ?_⟩
  · intro html base_url
    rw [hmain html base_url]
    exact dedupFrom_nodup _ _
  · intro le ev c hc hm
    rw [onEvent_eq_candidate, hc]
    exact if_pos hm

theorem classifier_dedup_first_occurrence_witness :
    eventCandidate wUrl "ex.com" "/media/"
        (.startTag "a" [("href", some "/media/news/a1")]) = some wL1
    ∧ (LinkExtractor.mk wUrl "ex.com" "/media/" [wL1]).onEvent
        (.startTag "a" [("href", some "/media/news/a1")])
      = LinkExtractor.mk wUrl "ex.com" "/media/" [wL1] :=
  ⟨by decide,
   classifier_dedup_first_occurrence.2.2
     (LinkExtractor.mk wUrl "ex.com" "/media/" [wL1])
     (.startTag "a" [("href", some "/media/news/a1")]) wL1 (by decide) (by decide)⟩

end Scraper
